import Mathlib

set_option maxRecDepth 100000
set_option maxHeartbeats 2000000

/-!
Verification of the S-Box Transformation & Comparative Scoring Engine of the
AES S-Box Explorer web application.

The engine consists of (a) the 256-entry permutation-table model with its
bijectivity invariant, (b) inverse-table derivation, (c) the substitution
cipher encode/decode pipeline with PKCS7-style padding, and (d) the
multi-metric comparison of two S-box candidates.  The front-end source is
`src/static/js/main.js` together with `src/unnamed/part_000`; the Flask
backend implementing the `/encrypt-text`, `/decrypt-text` and
`/upload-custom-sbox` endpoints is not part of the source tree, so those
operations are modelled from the specification (each such definition is
marked `Modelled from the spec:`).

Numbers handled by the JavaScript code are modelled as `Nat` (byte values,
indices, lengths) and `ℚ` (metric values); strings are modelled as lists of
their UTF-16 code units (`List Char` / `List Nat`).
-/

/-- From `src/static/js/main.js` lines 116-120 (identical in
`src/unnamed/part_000` lines 39-43):

```js
function generateInverseSBox(sbox) {
    const inv = new Array(256);
    for(let i=0; i<256; i++) inv[sbox[i]] = i;
    return inv;
}
```

`new Array(256)` yields 256 empty slots, modelled as `none`; the loop body
`inv[sbox[i]] = i` is modelled by `List.set`.  (For the length-256 tables the
theorems consider, `sbox[i]` is always defined and the write index is in
range whenever the table values are bytes.) -/
def generateInverseSBox (sbox : List Nat) : List (Option Nat) :=
  (List.range 256).foldl (fun inv i => inv.set (sbox.getD i 0) (some i))
    (List.replicate 256 none)

/-- From `src/static/js/main.js` lines 502-508:

```js
function generateInverseSBoxFromArray(sbox) {
    const inv = new Array(256).fill(0);
    for (let i = 0; i < 256; i++) { inv[sbox[i]] = i; }
    return inv;
}
```

Same loop as `generateInverseSBox`, but the array starts zero-filled. -/
def generateInverseSBoxFromArray (sbox : List Nat) : List Nat :=
  (List.range 256).foldl (fun inv i => inv.set (sbox.getD i 0) i)
    (List.replicate 256 0)

/-- The bijectivity invariant of a permutation table (spec §3): 256 entries,
every value a byte, no value repeated (hence every byte occurs exactly once). -/
def ValidSbox (sbox : List Nat) : Prop :=
  sbox.length = 256 ∧ (∀ v ∈ sbox, v < 256) ∧ sbox.Nodup

instance : DecidablePred ValidSbox := fun sbox => by
  unfold ValidSbox; infer_instance

/-- The identity table `[0,1,...,255]` (spec §8, concrete scenario 1). -/
def identitySbox : List Nat := List.range 256

lemma identitySbox_valid : ValidSbox identitySbox := by
  refine ⟨List.length_range 256, fun v hv => ?_, List.nodup_range 256⟩
  exact List.mem_range.mp hv

lemma getD_set_self {α : Type} (l : List α) (k : Nat) (v d : α) (h : k < l.length) :
    (l.set k v).getD k d = v := by
  rw [List.getD_eq_getElem?_getD, List.getElem?_set_self (by simpa using h)]
  rfl

lemma getD_set_ne {α : Type} (l : List α) {k k' : Nat} (hne : k' ≠ k) (v : α) (d : α) :
    (l.set k' v).getD k d = l.getD k d := by
  rw [List.getD_eq_getElem?_getD, List.getElem?_set_ne hne, List.getD_eq_getElem?_getD]

/-- Value of the table at an index, as the JS code reads it (`sbox[i]`). -/
lemma sbox_getD_lt {sbox : List Nat} (hlen : sbox.length = 256)
    (hval : ∀ v ∈ sbox, v < 256) {i : Nat} (hi : i < 256) : sbox.getD i 0 < 256 := by
  rw [List.getD_eq_getElem _ _ (by omega)]
  exact hval _ (List.getElem_mem ..)

lemma sbox_getD_inj {sbox : List Nat} (hlen : sbox.length = 256) (hnd : sbox.Nodup)
    {i j : Nat} (hi : i < 256) (hj : j < 256) (hij : i ≠ j) :
    sbox.getD i 0 ≠ sbox.getD j 0 := by
  rw [List.getD_eq_getElem _ _ (by omega), List.getD_eq_getElem _ _ (by omega)]
  intro he
  exact hij ((List.Nodup.getElem_inj_iff hnd).mp he)

/-- Both inverse-derivation loops are instances of this fold; it preserves
the 256-slot length of the accumulator array. -/
lemma foldl_set_length {α : Type} (sbox : List Nat) (f : Nat → α) (n : Nat)
    (init : List α) :
    ((List.range n).foldl (fun inv i => inv.set (sbox.getD i 0) (f i)) init).length
      = init.length := by
  induction n with
  | zero => rfl
  | succ m ih =>
    rw [List.range_succ, List.foldl_append]
    simpa using ih

/-- After running the inverse-derivation loop over `i < n`, the slot at
`sbox[i]` holds `f i`, for every bijective table. -/
lemma foldl_set_getD {α : Type} {sbox : List Nat} (hlen : sbox.length = 256)
    (hval : ∀ v ∈ sbox, v < 256) (hnd : sbox.Nodup) (f : Nat → α) (d : α)
    (init : List α) (hinit : init.length = 256) :
    ∀ n, n ≤ 256 → ∀ i < n,
      ((List.range n).foldl (fun inv i => inv.set (sbox.getD i 0) (f i)) init).getD
        (sbox.getD i 0) d = f i := by
  intro n
  induction n with
  | zero => omega
  | succ m ih =>
    intro hm i hi
    rw [List.range_succ, List.foldl_append]
    simp only [List.foldl_cons, List.foldl_nil]
    rcases Nat.lt_succ_iff_lt_or_eq.mp hi with hlt | heq
    · rw [getD_set_ne _ (sbox_getD_inj hlen hnd (by omega) (by omega) (by omega)) _ _]
      exact ih (by omega) i hlt
    · subst heq
      exact getD_set_self _ _ _ _ (by
        rw [foldl_set_length, hinit]
        exact sbox_getD_lt hlen hval (by omega))

lemma generateInverseSBox_getD {sbox : List Nat} (h : ValidSbox sbox)
    {i : Nat} (hi : i < 256) :
    (generateInverseSBox sbox).getD (sbox.getD i 0) none = some i := by
  obtain ⟨hlen, hval, hnd⟩ := h
  exact foldl_set_getD hlen hval hnd (fun i => some i) none _ (by simp) 256 le_rfl i hi

lemma generateInverseSBoxFromArray_getD {sbox : List Nat} (h : ValidSbox sbox)
    {i : Nat} (hi : i < 256) :
    (generateInverseSBoxFromArray sbox).getD (sbox.getD i 0) 0 = i := by
  obtain ⟨hlen, hval, hnd⟩ := h
  exact foldl_set_getD hlen hval hnd (fun i => i) 0 _ (by simp) 256 le_rfl i hi

/-- A bijective table takes every byte value at some index (surjectivity,
from injectivity on a 256-element list of bytes). -/
lemma sbox_surjective {sbox : List Nat} (h : ValidSbox sbox) {k : Nat} (hk : k < 256) :
    ∃ j, j < 256 ∧ sbox.getD j 0 = k := by
  obtain ⟨hlen, hval, hnd⟩ := h
  have h1 : sbox.toFinset ⊆ Finset.range 256 := by
    intro x hx
    simp only [List.mem_toFinset] at hx
    exact Finset.mem_range.mpr (hval x hx)
  have h2 : sbox.toFinset.card = 256 := by
    rw [List.toFinset_card_of_nodup hnd, hlen]
  have h3 : sbox.toFinset = Finset.range 256 :=
    Finset.eq_of_subset_of_card_le h1 (by simp [h2])
  have hk' : k ∈ sbox := by
    rw [← List.mem_toFinset, h3]
    exact Finset.mem_range.mpr hk
  obtain ⟨j, hj, hgj⟩ := List.getElem_of_mem hk'
  refine ⟨j, by omega, ?_⟩
  rw [List.getD_eq_getElem _ _ hj]
  exact hgj

/-- C2. Inverse-table law: for every forward table satisfying the bijectivity
invariant, the inverse derived by `generateInverseSBox` satisfies
`inverse[forward[i]] = i` (slot `forward[i]` holds `some i`) and
`forward[inverse[i]] = i` (slot `i` holds `some j` with `forward[j] = i`)
for every `i` in `0..255`. -/
theorem generateInverseSBox_is_inverse (sbox : List Nat) (h : ValidSbox sbox) :
    ∀ i < 256,
      (generateInverseSBox sbox).getD (sbox.getD i 0) none = some i ∧
      ∃ j, (generateInverseSBox sbox).getD i none = some j ∧ sbox.getD j 0 = i := by
  intro i hi
  refine ⟨generateInverseSBox_getD h hi, ?_⟩
  obtain ⟨j, hj, hgj⟩ := sbox_surjective h hi
  refine ⟨j, ?_, hgj⟩
  rw [← hgj]
  exact generateInverseSBox_getD h hj

/-- Witness for C2 at the concrete table of spec §8 scenario 2: the identity
table with entries 5 and 9 swapped. -/
def swap59Sbox : List Nat := (List.range 256).map fun i =>
  if i = 5 then 9 else if i = 9 then 5 else i

theorem generateInverseSBox_is_inverse_witness :
    (generateInverseSBox swap59Sbox).getD (swap59Sbox.getD 5 0) none = some 5 ∧
    ∃ j, (generateInverseSBox swap59Sbox).getD 5 none = some j ∧ swap59Sbox.getD j 0 = 5 :=
  generateInverseSBox_is_inverse swap59Sbox (by decide) 5 (by decide)

/-- The error taxonomy entry for table validation (spec §7). -/
inductive TableError where
  | notBijective (reason : String)
deriving DecidableEq

/-- Modelled from the spec: the table-validation behind the
`/upload-custom-sbox` endpoint lives in the Flask backend, which is not in
the source tree (the front end at `main.js` lines 2063-2138 only forwards
the file and displays `data.error`).  Spec §4.1: `construct` validates that
the length is exactly 256, every value is in `[0,255]`, and every value
occurs exactly once, failing with `NotBijective` and a reason distinguishing
wrong length, out-of-range value, and duplicate/missing value; on success it
eagerly derives the inverse (the in-source derivation
`generateInverseSBoxFromArray`, `main.js` lines 502-508). -/
def construct (raw : List Nat) : Except TableError (List Nat × List Nat) :=
  if raw.length ≠ 256 then .error (.notBijective "wrong length")
  else if ¬ (∀ v ∈ raw, v < 256) then .error (.notBijective "value out of range")
  else if ¬ (∀ v ∈ List.range 256, raw.count v = 1) then
    .error (.notBijective "duplicate or missing value")
  else .ok (raw, generateInverseSBoxFromArray raw)

/-- C3. Rejection completeness: every raw table whose length differs from
256, or containing a value outside `0..255`, or in which some byte value is
repeated or missing, is rejected with a `notBijective` error; no such table
is accepted (and hence no inverse is derived for it). -/
theorem construct_rejects_nonbijective (raw : List Nat)
    (hbad : raw.length ≠ 256 ∨ (∃ v ∈ raw, ¬ v < 256) ∨
      (∃ v < 256, raw.count v ≠ 1)) :
    ∃ reason, construct raw = .error (.notBijective reason) := by
  unfold construct
  by_cases h1 : raw.length ≠ 256
  · simp [h1]
  · rw [if_neg h1]
    by_cases h2 : ∀ v ∈ raw, v < 256
    · rw [if_neg (by simpa using h2)]
      by_cases h3 : ∀ v ∈ List.range 256, raw.count v = 1
      · exfalso
        rcases hbad with hb | hb | hb
        · exact h1 hb
        · obtain ⟨v, hv, hlt⟩ := hb
          exact hlt (h2 v hv)
        · obtain ⟨v, hv, hc⟩ := hb
          exact hc (h3 v (List.mem_range.mpr hv))
      · exact ⟨_, if_pos h3⟩
    · exact ⟨_, if_pos (by simpa using h2)⟩

theorem construct_rejects_nonbijective_witness :
    ((List.replicate 256 7).length ≠ 256 ∨
      (∃ v ∈ List.replicate 256 7, ¬ v < 256) ∨
      (∃ v < 256, (List.replicate 256 7).count v ≠ 1)) ∧
    ∃ reason, construct (List.replicate 256 7) = .error (.notBijective reason) :=
  ⟨by decide, construct_rejects_nonbijective (List.replicate 256 7) (by decide)⟩

/-- Modelled from the spec: the `/encrypt-text` endpoint's padding step is in
the Flask backend, absent from the source tree.  Spec §4.2 / §8 scenario 1:
PKCS7-style padding with block size 16 — the pad length is `16 - n % 16`
(a full extra block when `n` is already a multiple of 16). -/
def padLength (n : Nat) : Nat := 16 - n % 16

/-- Modelled from the spec: pad with `padLength` trailing bytes whose value
equals the pad length (PKCS7 convention, spec §4.2 and Glossary). -/
def pkcs7Pad (p : List Nat) : List Nat :=
  p ++ List.replicate (padLength p.length) (padLength p.length)

/-- Modelled from the spec: `encode` pads the plaintext and then applies
`table.forward` (`sbox[b]`) to every byte independently, returning the
padded-and-substituted bytes plus the pre-padding length (spec §4.2; the
front end receives them as `cipher_bytes` and `original_length`,
`main.js` lines 943-961). -/
def encode (p : List Nat) (sbox : List Nat) : List Nat × Nat :=
  ((pkcs7Pad p).map (fun b => sbox.getD b 0), p.length)

/-- Modelled from the spec: `decode` with an authoritative `originalLength`
applies `table.backward` (lookup in the derived inverse table,
`generateInverseSBoxFromArray`) to every byte and truncates to exactly
`originalLength` (spec §4.2, padding-removal policy 1). -/
def decode (c : List Nat) (sbox : List Nat) (originalLength : Nat) : List Nat :=
  (c.map (fun b => (generateInverseSBoxFromArray sbox).getD b 0)).take originalLength

/-- C1. Round-trip law: for every bijective table and every byte sequence
`p` (including the empty one), decoding the encoding of `p` with the
`originalLength` returned by `encode` yields exactly `p`. -/
theorem encode_decode_roundtrip (sbox : List Nat) (h : ValidSbox sbox)
    (p : List Nat) (hp : ∀ b ∈ p, b < 256) :
    decode (encode p sbox).1 sbox (encode p sbox).2 = p := by
  have hpt : ∀ b ∈ p, (generateInverseSBoxFromArray sbox).getD (sbox.getD b 0) 0 = b :=
    fun b hb => generateInverseSBoxFromArray_getD h (hp b hb)
  unfold encode decode pkcs7Pad
  generalize hI : generateInverseSBoxFromArray sbox = inv at hpt ⊢
  show (((p ++ List.replicate (padLength p.length) (padLength p.length)).map
      fun b => sbox.getD b 0).map fun b => inv.getD b 0).take p.length = p
  rw [List.map_map, List.map_append]
  have h1 : p.map ((fun b => inv.getD b 0) ∘ fun b => sbox.getD b 0) = p := by
    have h2 : p.map ((fun b => inv.getD b 0) ∘ fun b => sbox.getD b 0)
        = p.map (fun b => b) := by
      refine List.map_congr_left fun b hb => ?_
      exact hpt b hb
    rw [h2, List.map_id']
  rw [h1]
  exact List.take_left' rfl

theorem encode_decode_roundtrip_witness :
    decode (encode [65] identitySbox).1 identitySbox (encode [65] identitySbox).2 = [65] :=
  encode_decode_roundtrip identitySbox (by decide) [65] (by decide)

/-- C8. Encode totality: `encode` is a total function; for every plaintext
byte sequence (the empty one included) it returns the substituted padding of
the input — a nonempty ciphertext whose length is the input length rounded
up to the next multiple of 16 (a full extra block when already a multiple) —
together with the pre-padding length. -/
theorem encode_total (p : List Nat) (sbox : List Nat) :
    (encode p sbox).2 = p.length ∧
    (encode p sbox).1.length = p.length + padLength p.length ∧
    (encode p sbox).1.length % 16 = 0 ∧
    0 < (encode p sbox).1.length := by
  have hlen : (encode p sbox).1.length = p.length + padLength p.length := by
    unfold encode pkcs7Pad
    simp
  refine ⟨rfl, hlen, ?_, ?_⟩
  · rw [hlen]
    unfold padLength
    omega
  · rw [hlen]
    unfold padLength
    omega

/-- From `src/static/js/main.js` lines 307-309 (identical in
`src/unnamed/part_000` lines 134-136): the demo encrypt step
`txt.split('').map(c => currentData.sbox[c.charCodeAt(0) % 256])`.
The input string is modelled as the list of its UTF-16 code units. -/
def doCryptoEncrypt (sbox : List Nat) (txt : List Nat) : List Nat :=
  txt.map fun c => sbox.getD (c % 256) 0

/-- From `src/static/js/main.js` lines 312-313 (`src/unnamed/part_000`
lines 138-140): the demo decrypt step
`ciph.map(b => String.fromCharCode(inverseSBox[b]))`, with the decrypted
string modelled as the list of its UTF-16 code units.  (A hole in the
inverse array reads as `undefined`, which `String.fromCharCode` coerces to
code unit 0 — hence `.getD 0` on the optional slot.) -/
def doCryptoDecrypt (sbox : List Nat) (ciph : List Nat) : List Nat :=
  ciph.map fun b => ((generateInverseSBox sbox).getD b none).getD 0

lemma map_eq_self_forall {α : Type} {f : α → α} :
    ∀ l : List α, l.map f = l → ∀ x ∈ l, f x = x := by
  intro l
  induction l with
  | nil => intro _ x hx; cases hx
  | cons a t ih =>
    intro h x hx
    rw [List.map_cons, List.cons.injEq] at h
    rcases List.mem_cons.mp hx with hx | hx
    · rw [hx]; exact h.1
    · exact ih h.2 x hx

/-- C9. In the interactive demo path, each character is substituted at index
`charCode % 256`, so for a bijective table the displayed decryption is the
input with every UTF-16 code unit `c` replaced by `c % 256`; consequently
encrypt-then-decrypt reproduces the input exactly iff every code unit is
below 256.  (`doCrypto` returns early on the empty string, hence the
nonemptiness guard.) -/
theorem doCrypto_decrypt_mod256 (sbox : List Nat) (txt : List Nat)
    (h : ValidSbox sbox) (hne : txt ≠ []) :
    doCryptoDecrypt sbox (doCryptoEncrypt sbox txt) = txt.map (fun c => c % 256) ∧
    (doCryptoDecrypt sbox (doCryptoEncrypt sbox txt) = txt ↔ ∀ c ∈ txt, c < 256) := by
  have hpt0 : ∀ c : Nat,
      (generateInverseSBox sbox).getD (sbox.getD (c % 256) 0) none = some (c % 256) :=
    fun c => generateInverseSBox_getD h (Nat.mod_lt _ (by omega))
  unfold doCryptoDecrypt doCryptoEncrypt
  generalize hI : generateInverseSBox sbox = inv at hpt0 ⊢
  rw [List.map_map]
  have hmain : txt.map ((fun b => (inv.getD b none).getD 0) ∘
      fun c => sbox.getD (c % 256) 0) = txt.map (fun c => c % 256) := by
    refine List.map_congr_left fun c _ => ?_
    show (inv.getD (sbox.getD (c % 256) 0) none).getD 0 = c % 256
    rw [hpt0 c]
    rfl
  refine ⟨hmain, ?_⟩
  rw [hmain]
  constructor
  · intro he c hc
    have h1 : c % 256 = c := map_eq_self_forall txt he c hc
    omega
  · intro hlt
    have h1 : txt.map (fun c => c % 256) = txt.map (fun c => c) :=
      List.map_congr_left fun c hc => Nat.mod_eq_of_lt (hlt c hc)
    rw [h1, List.map_id']

theorem doCrypto_decrypt_mod256_witness :
    doCryptoDecrypt identitySbox (doCryptoEncrypt identitySbox [72, 300]) = [72, 44] ∧
    ¬ doCryptoDecrypt identitySbox (doCryptoEncrypt identitySbox [72, 300]) = [72, 300] := by
  have h := doCrypto_decrypt_mod256 identitySbox [72, 300] (by decide) (by decide)
  refine ⟨by rw [h.1]; decide, fun he => ?_⟩
  have h2 := h.2.mp he
  have h3 := h2 300 (by decide)
  omega

/-- Per-metric comparison outcome (A = the custom/first payload, B = the
existing/second payload). -/
inductive Verdict where
  | ABetter
  | BBetter
  | Tie
deriving DecidableEq

/-- The `compareType` strings accepted by `renderComparisonRow`
(`main.js` lines 2437-2448): `'higher'`, `'lower'`, `'closer_to_0.5'`. -/
inductive CompareType where
  | higher
  | lower
  | closerToHalf
deriving DecidableEq

/-- From `src/static/js/main.js` lines 2430-2453 (`renderComparisonRow`):
the verdict encoded by the `customBetter` / `existingBetter` flags.

```js
if (compareType === 'higher') {
    if (customNum > existingNum) customBetter = true;
    else if (existingNum > customNum) existingBetter = true;
} else if (compareType === 'lower') { ... mirrored with < ... }
else if (compareType === 'closer_to_0.5') {
    const customDiff = Math.abs(customNum - 0.5); ...
    if (customDiff < existingDiff) customBetter = true;
    else if (existingDiff < customDiff) existingBetter = true;
}
```

The row is invoked on numbers (or on `toFixed` renderings that `parseFloat`
maps back to the same value for the inputs considered here), so the values
are modelled directly as rationals. -/
def compareOne (t : CompareType) (a b : ℚ) : Verdict :=
  match t with
  | .higher => if a > b then .ABetter else if b > a then .BBetter else .Tie
  | .lower => if a < b then .ABetter else if b < a then .BBetter else .Tie
  | .closerToHalf =>
      if |a - 1/2| < |b - 1/2| then .ABetter
      else if |b - 1/2| < |a - 1/2| then .BBetter
      else .Tie

/-- The metric payload of an uploaded custom S-box as the comparison code
reads it (fields of `customMetrics` used in `main.js` lines 2391-2396 and
2494-2545). -/
structure CustomMetrics where
  nonlinearity : ℚ
  sac : ℚ
  bic : ℚ
  lap : ℚ
  dap : ℚ
  fixed_points : ℚ
deriving DecidableEq

/-- The metric payload of a catalog candidate: the ten metric keys of the
shared metric map (`main.js` lines 1646-1657 and the fields read at lines
2391-2396, 2494-2545). -/
structure ExistingMetrics where
  NL : ℚ
  SAC : ℚ
  BIC_NL : ℚ
  BIC_SAC : ℚ
  LAP : ℚ
  DAP : ℚ
  DU : ℚ
  AD : ℚ
  TO : ℚ
  CI : ℚ
deriving DecidableEq

/-- From `src/static/js/main.js` lines 2391-2396: the full per-metric verdict
sequence rendered by the comparison feature — exactly six rows, in source
order, each applying `renderComparisonRow`'s verdict logic to the shown pair
of values (the `Fixed Points` row reads `existingMetrics.TO || 0`). -/
def comparisonRows (c : CustomMetrics) (e : ExistingMetrics) :
    List (String × Verdict) :=
  [ ("Nonlinearity", compareOne .higher c.nonlinearity e.NL),
    ("SAC", compareOne .closerToHalf c.sac e.SAC),
    ("BIC", compareOne .closerToHalf c.bic e.BIC_SAC),
    ("LAP", compareOne .lower c.lap e.LAP),
    ("DAP", compareOne .lower c.dap e.DAP),
    ("Fixed Points", compareOne .lower c.fixed_points (if e.TO = 0 then 0 else e.TO)) ]

/-- One `customWins++ / existingWins++` block of `generateComparisonSummary`
for a higher-is-better metric (`main.js` lines 2500-2506). -/
def summaryStepHigher (a b : ℚ) (w : Nat × Nat) : Nat × Nat :=
  if a > b then (w.1 + 1, w.2) else if b > a then (w.1, w.2 + 1) else w

/-- One block for a lower-is-better metric (`main.js` lines 2520-2545). -/
def summaryStepLower (a b : ℚ) (w : Nat × Nat) : Nat × Nat :=
  if a < b then (w.1 + 1, w.2) else if b < a then (w.1, w.2 + 1) else w

/-- One block for the closer-to-0.5 metric (`main.js` lines 2509-2517). -/
def summaryStepCloser (a b : ℚ) (w : Nat × Nat) : Nat × Nat :=
  if |a - 1/2| < |b - 1/2| then (w.1 + 1, w.2)
  else if |b - 1/2| < |a - 1/2| then (w.1, w.2 + 1) else w

/-- From `src/static/js/main.js` lines 2494-2558 (`generateComparisonSummary`):
the win counters are accumulated over exactly five comparisons —
Nonlinearity vs `NL` (higher), SAC vs `SAC` (closer to 0.5), LAP vs `LAP`
(lower), DAP vs `DAP` (lower), fixed points vs `TO || 0` (lower) — and the
overall verdict goes to the side with strictly more wins, else it is a tie
(lines 2552-2558).  Returns `(customWins, existingWins, overall)`. -/
def generateComparisonSummary (c : CustomMetrics) (e : ExistingMetrics) :
    Nat × Nat × Verdict :=
  let w1 := summaryStepHigher c.nonlinearity e.NL (0, 0)
  let w2 := summaryStepCloser c.sac e.SAC w1
  let w3 := summaryStepLower c.lap e.LAP w2
  let w4 := summaryStepLower c.dap e.DAP w3
  let w5 := summaryStepLower c.fixed_points (if e.TO = 0 then 0 else e.TO) w4
  (w5.1, w5.2, if w5.1 > w5.2 then .ABetter else if w5.2 > w5.1 then .BBetter else .Tie)

/-- The verdicts of the five comparisons that `generateComparisonSummary`
actually aggregates (the displayed `BIC` row is skipped). -/
def aggregateVerdicts (c : CustomMetrics) (e : ExistingMetrics) : List Verdict :=
  [ compareOne .higher c.nonlinearity e.NL,
    compareOne .closerToHalf c.sac e.SAC,
    compareOne .lower c.lap e.LAP,
    compareOne .lower c.dap e.DAP,
    compareOne .lower c.fixed_points (if e.TO = 0 then 0 else e.TO) ]

/-- The winning condition that the spec's metric-direction table declares for
each comparison direction: strictly greater wins under higher-is-better,
strictly smaller wins under lower-is-better, strictly smaller deviation from
the target 0.5 wins under closer-to-target. -/
def winsOver (t : CompareType) (a b : ℚ) : Prop :=
  match t with
  | .higher => b < a
  | .lower => a < b
  | .closerToHalf => |a - 1/2| < |b - 1/2|

/-- The quantity whose equality makes a comparison a tie. -/
def comparedQuantity (t : CompareType) (a : ℚ) : ℚ :=
  match t with
  | .higher => a
  | .lower => a
  | .closerToHalf => |a - 1/2|

/-- C4. Per-metric verdict rule: for every comparison direction used by the
comparison rows and every pair of numeric values, `compareOne` returns
`ABetter` exactly when A's value wins under the declared direction,
`BBetter` exactly when B's value wins, and `Tie` exactly when the compared
quantities are equal. -/
theorem compareOne_direction_rule (t : CompareType) (a b : ℚ) :
    (compareOne t a b = .ABetter ↔ winsOver t a b) ∧
    (compareOne t a b = .BBetter ↔ winsOver t b a) ∧
    (compareOne t a b = .Tie ↔ comparedQuantity t a = comparedQuantity t b) := by
  cases t <;>
    simp only [compareOne, winsOver, comparedQuantity] <;>
    split_ifs with h1 h2 <;>
    refine ⟨?_, ?_, ?_⟩ <;>
    simp_all <;>
    first
      | omega
      | linarith

/-- Increment of the `(customWins, existingWins)` pair prescribed by one
verdict. -/
def winInc (v : Verdict) (w : Nat × Nat) : Nat × Nat :=
  match v with
  | .ABetter => (w.1 + 1, w.2)
  | .BBetter => (w.1, w.2 + 1)
  | .Tie => w

lemma summaryStepHigher_eq (a b : ℚ) (w : Nat × Nat) :
    summaryStepHigher a b w = winInc (compareOne .higher a b) w := by
  unfold summaryStepHigher compareOne winInc
  split_ifs <;> rfl

lemma summaryStepLower_eq (a b : ℚ) (w : Nat × Nat) :
    summaryStepLower a b w = winInc (compareOne .lower a b) w := by
  unfold summaryStepLower compareOne winInc
  split_ifs <;> rfl

lemma summaryStepCloser_eq (a b : ℚ) (w : Nat × Nat) :
    summaryStepCloser a b w = winInc (compareOne .closerToHalf a b) w := by
  unfold summaryStepCloser compareOne winInc
  split_ifs <;> rfl

lemma foldl_winInc_counts :
    ∀ (l : List Verdict) (w : Nat × Nat),
      (l.foldl (fun w v => winInc v w) w).1 = w.1 + l.count .ABetter ∧
      (l.foldl (fun w v => winInc v w) w).2 = w.2 + l.count .BBetter := by
  intro l
  induction l with
  | nil => intro w; simp
  | cons v t ih =>
    intro w
    simp only [List.foldl_cons]
    obtain ⟨ihA, ihB⟩ := ih (winInc v w)
    refine ⟨?_, ?_⟩
    · rw [ihA]
      cases v <;> simp [winInc, List.count_cons] <;> omega
    · rw [ihB]
      cases v <;> simp [winInc, List.count_cons] <;> omega

/-- `generateComparisonSummary` expressed as a fold of `winInc` over the five
verdicts it aggregates. -/
lemma generateComparisonSummary_eq_fold (c : CustomMetrics) (e : ExistingMetrics) :
    generateComparisonSummary c e =
      (((aggregateVerdicts c e).foldl (fun w v => winInc v w) (0, 0)).1,
       ((aggregateVerdicts c e).foldl (fun w v => winInc v w) (0, 0)).2,
       if ((aggregateVerdicts c e).foldl (fun w v => winInc v w) (0, 0)).1 >
           ((aggregateVerdicts c e).foldl (fun w v => winInc v w) (0, 0)).2 then .ABetter
       else if ((aggregateVerdicts c e).foldl (fun w v => winInc v w) (0, 0)).2 >
           ((aggregateVerdicts c e).foldl (fun w v => winInc v w) (0, 0)).1 then .BBetter
       else .Tie) := by
  simp only [aggregateVerdicts, List.foldl_cons, List.foldl_nil, ← summaryStepHigher_eq,
    ← summaryStepCloser_eq, ← summaryStepLower_eq]
  rfl

/-- C5 (amended). The summary's win counters equal the number of `ABetter`
(resp. `BBetter`) verdicts over the five comparisons it performs —
Nonlinearity, SAC, LAP, DAP and fixed-points-vs-`TO` (the displayed BIC row
and the remaining catalog metrics contribute to neither counter) — and the
overall verdict goes to the side with strictly more wins, with a tie exactly
on equal counts. -/
theorem generateComparisonSummary_aggregate (c : CustomMetrics) (e : ExistingMetrics) :
    (generateComparisonSummary c e).1 = (aggregateVerdicts c e).count .ABetter ∧
    (generateComparisonSummary c e).2.1 = (aggregateVerdicts c e).count .BBetter ∧
    ((generateComparisonSummary c e).2.2 = .ABetter ↔
      (aggregateVerdicts c e).count .ABetter > (aggregateVerdicts c e).count .BBetter) ∧
    ((generateComparisonSummary c e).2.2 = .BBetter ↔
      (aggregateVerdicts c e).count .BBetter > (aggregateVerdicts c e).count .ABetter) ∧
    ((generateComparisonSummary c e).2.2 = .Tie ↔
      (aggregateVerdicts c e).count .ABetter = (aggregateVerdicts c e).count .BBetter) := by
  obtain ⟨hA, hB⟩ := foldl_winInc_counts (aggregateVerdicts c e) (0, 0)
  rw [generateComparisonSummary_eq_fold]
  simp only [hA, hB, Nat.zero_add]
  refine ⟨trivial, trivial, ?_, ?_, ?_⟩ <;>
    split_ifs with h1 h2 <;>
    simp_all <;>
    omega

/-- A custom payload strictly better than `exampleExistingMetrics` on every
one of the six displayed comparisons. -/
def exampleCustomMetrics : CustomMetrics :=
  { nonlinearity := 112, sac := 1/2, bic := 1/2, lap := 0, dap := 0, fixed_points := 0 }

/-- A catalog payload with all ten metric keys populated. -/
def exampleExistingMetrics : ExistingMetrics :=
  { NL := 100, SAC := 2/5, BIC_NL := 100, BIC_SAC := 2/5, LAP := 1, DAP := 1,
    DU := 4, AD := 7, TO := 5, CI := 0 }

/-- C5 (counterexample). At these concrete payloads every displayed
per-metric verdict — six of them — is `ABetter`, yet the aggregate counts
only five wins for side A: the win counters are not the number of non-tie
verdicts over a ten-metric set (nor even over the six displayed ones). -/
theorem generateComparisonSummary_not_ten_counterexample :
    ((comparisonRows exampleCustomMetrics exampleExistingMetrics).map Prod.snd).count
        .ABetter = 6 ∧
    (generateComparisonSummary exampleCustomMetrics exampleExistingMetrics).1 = 5 ∧
    ¬ (5 : Nat) = 6 ∧ ¬ (5 : Nat) = 10 := by
  refine ⟨?_, ?_, by omega, by omega⟩
  · simp only [comparisonRows, exampleCustomMetrics, exampleExistingMetrics, compareOne]
    norm_num
  · simp only [generateComparisonSummary, summaryStepHigher, summaryStepCloser,
      summaryStepLower, exampleCustomMetrics, exampleExistingMetrics]
    norm_num

/-- C7 (amended). The comparison feature renders exactly six labelled
verdict rows, in source order Nonlinearity, SAC, BIC, LAP, DAP, Fixed
Points; each verdict applies `renderComparisonRow`'s rule to the two
payloads' values for that row (the BIC row pairs the custom `bic` with the
catalog `BIC_SAC`, and the Fixed Points row pairs the custom `fixed_points`
with the catalog `TO || 0`). -/
theorem comparisonRows_structure (c : CustomMetrics) (e : ExistingMetrics) :
    (comparisonRows c e).length = 6 ∧
    (comparisonRows c e).map Prod.fst =
      ["Nonlinearity", "SAC", "BIC", "LAP", "DAP", "Fixed Points"] ∧
    (comparisonRows c e).map Prod.snd =
      [ compareOne .higher c.nonlinearity e.NL,
        compareOne .closerToHalf c.sac e.SAC,
        compareOne .closerToHalf c.bic e.BIC_SAC,
        compareOne .lower c.lap e.LAP,
        compareOne .lower c.dap e.DAP,
        compareOne .lower c.fixed_points (if e.TO = 0 then 0 else e.TO) ] :=
  ⟨rfl, rfl, rfl⟩

/-- C7 (counterexample). At concrete payloads the rendered verdict sequence
has six rows labelled Nonlinearity, SAC, BIC, LAP, DAP, Fixed Points — not
one row per key of the ten-key set NL, SAC, BIC_NL, BIC_SAC, LAP, DAP, DU,
AD, TO, CI in that canonical order. -/
theorem comparisonRows_not_ten_counterexample :
    (comparisonRows exampleCustomMetrics exampleExistingMetrics).length = 6 ∧
    (comparisonRows exampleCustomMetrics exampleExistingMetrics).map Prod.fst =
      ["Nonlinearity", "SAC", "BIC", "LAP", "DAP", "Fixed Points"] ∧
    ¬ (comparisonRows exampleCustomMetrics exampleExistingMetrics).length = 10 ∧
    ¬ (comparisonRows exampleCustomMetrics exampleExistingMetrics).map Prod.fst =
      ["NL", "SAC", "BIC_NL", "BIC_SAC", "LAP", "DAP", "DU", "AD", "TO", "CI"] := by
  refine ⟨rfl, rfl, by decide, ?_⟩
  intro h
  have h10 := congrArg List.length h
  have h6 : (comparisonRows exampleCustomMetrics exampleExistingMetrics).length = 6 := rfl
  simp only [List.length_map, h6] at h10
  simp at h10

/-- The verdict obtained when the two sides of a comparison are exchanged. -/
def swapVerdict : Verdict → Verdict
  | .ABetter => .BBetter
  | .BBetter => .ABetter
  | .Tie => .Tie

/-- Reading an existing-catalog payload in the custom slot: the five row
values plus the BIC value, in the positions the comparison code reads. -/
def customOfExisting (e : ExistingMetrics) : CustomMetrics :=
  { nonlinearity := e.NL, sac := e.SAC, bic := e.BIC_SAC, lap := e.LAP,
    dap := e.DAP, fixed_points := e.TO }

/-- Reading a custom payload in the existing-catalog slot (keys the
comparison never reads are irrelevant and set to 0). -/
def existingOfCustom (c : CustomMetrics) : ExistingMetrics :=
  { NL := c.nonlinearity, SAC := c.sac, BIC_NL := 0, BIC_SAC := c.bic,
    LAP := c.lap, DAP := c.dap, DU := 0, AD := 0, TO := c.fixed_points, CI := 0 }

lemma ite_zero_self (x : ℚ) : (if x = 0 then (0 : ℚ) else x) = x := by
  split_ifs with h
  · rw [h]
  · rfl

lemma compareOne_swap (t : CompareType) (a b : ℚ) :
    compareOne t b a = swapVerdict (compareOne t a b) := by
  cases t <;>
    simp only [compareOne] <;>
    split_ifs <;>
    first
      | rfl
      | (exfalso; linarith)

lemma count_map_swapVerdict (l : List Verdict) :
    ((l.map swapVerdict).count .ABetter = l.count .BBetter) ∧
    ((l.map swapVerdict).count .BBetter = l.count .ABetter) := by
  induction l with
  | nil => exact ⟨rfl, rfl⟩
  | cons v t ih =>
    obtain ⟨ih1, ih2⟩ := ih
    cases v <;> simp [swapVerdict, List.count_cons, ih1, ih2]

lemma aggregateVerdicts_swap (c : CustomMetrics) (e : ExistingMetrics) :
    aggregateVerdicts (customOfExisting e) (existingOfCustom c) =
      (aggregateVerdicts c e).map swapVerdict := by
  simp only [aggregateVerdicts, customOfExisting, existingOfCustom, List.map_cons,
    List.map_nil, ite_zero_self, List.cons.injEq, and_true]
  refine ⟨?_, ?_, ?_, ?_, ?_⟩ <;> exact compareOne_swap ..

/-- C6. Comparator symmetry: for every direction and pair of values,
exchanging the two sides exchanges `ABetter`/`BBetter` and preserves `Tie`
in `compareOne`'s verdict; and for every pair of payloads, exchanging the
values the comparison reads swaps the two sides' verdicts in every rendered
row, swaps the two win counters of the aggregate, and swaps (never breaks)
the overall outcome. -/
theorem comparator_symmetry :
    (∀ (t : CompareType) (a b : ℚ), compareOne t b a = swapVerdict (compareOne t a b)) ∧
    (∀ (c : CustomMetrics) (e : ExistingMetrics),
      (comparisonRows (customOfExisting e) (existingOfCustom c)).map Prod.snd =
        (comparisonRows c e).map (fun r => swapVerdict r.2) ∧
      (generateComparisonSummary (customOfExisting e) (existingOfCustom c)).1 =
        (generateComparisonSummary c e).2.1 ∧
      (generateComparisonSummary (customOfExisting e) (existingOfCustom c)).2.1 =
        (generateComparisonSummary c e).1 ∧
      (generateComparisonSummary (customOfExisting e) (existingOfCustom c)).2.2 =
        swapVerdict (generateComparisonSummary c e).2.2) := by
  refine ⟨compareOne_swap, fun c e => ?_⟩
  have hrows : (comparisonRows (customOfExisting e) (existingOfCustom c)).map Prod.snd =
      (comparisonRows c e).map (fun r => swapVerdict r.2) := by
    simp only [comparisonRows, customOfExisting, existingOfCustom, List.map_cons,
      List.map_nil, ite_zero_self, List.cons.injEq, and_true]
    refine ⟨?_, ?_, ?_, ?_, ?_, ?_⟩ <;> exact compareOne_swap ..
  obtain ⟨hA, hB⟩ := foldl_winInc_counts (aggregateVerdicts c e) (0, 0)
  obtain ⟨hA', hB'⟩ :=
    foldl_winInc_counts ((aggregateVerdicts c e).map swapVerdict) (0, 0)
  have hF1 : (((aggregateVerdicts c e).map swapVerdict).foldl
        (fun w v => winInc v w) (0, 0)).1 =
      ((aggregateVerdicts c e).foldl (fun w v => winInc v w) (0, 0)).2 := by
    rw [hA', (count_map_swapVerdict _).1, hB]
  have hF2 : (((aggregateVerdicts c e).map swapVerdict).foldl
        (fun w v => winInc v w) (0, 0)).2 =
      ((aggregateVerdicts c e).foldl (fun w v => winInc v w) (0, 0)).1 := by
    rw [hB', (count_map_swapVerdict _).2, hA]
  refine ⟨hrows, ?_, ?_, ?_⟩ <;>
    rw [generateComparisonSummary_eq_fold, generateComparisonSummary_eq_fold,
      aggregateVerdicts_swap]
  · exact hF1
  · exact hF2
  · show (if _ > _ then Verdict.ABetter else if _ > _ then Verdict.BBetter else Verdict.Tie)
      = swapVerdict _
    rw [hF1, hF2]
    split_ifs <;> simp [swapVerdict] <;> omega

/-- The header literal `'LENGTH:'` (strings are modelled as code-unit
lists). -/
def lengthTag : List Char := ['L', 'E', 'N', 'G', 'T', 'H', ':']

/-- The payload literal `'HEX:'`. -/
def hexTag : List Char := ['H', 'E', 'X', ':']

/-- JS `String.prototype.trim`: strip leading and trailing whitespace. -/
def jsTrim (s : List Char) : List Char :=
  ((s.dropWhile Char.isWhitespace).reverse.dropWhile Char.isWhitespace).reverse

/-- JS `s.replace(pat, '')` with a string pattern: remove the first
occurrence of `pat` (the only use in the parser removes a prefix). -/
def jsReplaceFirst (pat : List Char) : List Char → List Char
  | [] => []
  | ch :: cs =>
      if pat.isPrefixOf (ch :: cs) then (ch :: cs).drop pat.length
      else ch :: jsReplaceFirst pat cs

/-- JS `s.split('\n')`. -/
def splitOnNewline : List Char → List (List Char)
  | [] => [[]]
  | ch :: cs =>
      match splitOnNewline cs with
      | [] => [[ch]]
      | r :: rs => if ch = '\n' then [] :: r :: rs else (ch :: r) :: rs

/-- Decimal value of a digit-character run (the accumulating core of JS
`parseInt` on a decimal string). -/
def digitsToNat (ds : List Char) : Nat :=
  ds.foldl (fun a ch => 10 * a + (ch.toNat - 48)) 0

/-- JS `parseInt(s)` restricted to the shapes the parser meets: trim, read
the leading run of decimal digits, `NaN` (modelled `none`) when there is
none. -/
def jsParseInt (s : List Char) : Option Nat :=
  let t := (jsTrim s).takeWhile Char.isDigit
  if t.isEmpty then none else some (digitsToNat t)

/-- Decimal rendering of a natural number (JS number-to-string inside a
template literal, for the nonnegative integers used here). -/
def natChars (n : Nat) : List Char :=
  if n = 0 then ['0'] else ((Nat.digits 10 n).reverse.map Nat.digitChar)

/-- From `src/static/js/main.js` lines 1388-1395 (download handler): with a
stored hex string and a truthy original length the downloaded file content
is ``LENGTH:originalLength\nHEX:hex``; with no stored length it is the bare
hex string. -/
def downloadFileContent (hex : List Char) (originalLength : Nat) : List Char :=
  if originalLength ≠ 0 then
    lengthTag ++ natChars originalLength ++ '\n' :: (hexTag ++ hex)
  else hex

/-- From `src/static/js/main.js` lines 1000-1011 (decrypt routine): when the
input starts with `LENGTH:`, split it on newlines and scan every line — a
`LENGTH:` line sets `originalLength` to `parseInt` of the line minus the
tag, a `HEX:` line replaces the working input with the line minus the tag,
trimmed.  Returns the resulting `(originalLength, inputText)` state. -/
def parseCipherInput (input : List Char) (originalLength0 : Option Nat) :
    Option Nat × List Char :=
  if lengthTag.isPrefixOf input then
    (splitOnNewline input).foldl
      (fun acc line =>
        if lengthTag.isPrefixOf line then
          (jsParseInt (jsTrim (jsReplaceFirst lengthTag line)), acc.2)
        else if hexTag.isPrefixOf line then
          (acc.1, jsTrim (jsReplaceFirst hexTag line))
        else acc)
      (originalLength0, input)
  else (originalLength0, input)

/-- An uppercase-hexadecimal character, the alphabet of the stored cipher
hex strings. -/
def IsHexUpperChar (ch : Char) : Prop :=
  ch.isDigit = true ∨ ('A' ≤ ch ∧ ch ≤ 'F')

example : parseCipherInput (lengthTag ++ ['3'] ++ '\n' :: (hexTag ++ ['A', 'B'])) none
    = (some 3, ['A', 'B']) := by decide

example : parseCipherInput ['A', 'B', 'C', 'D'] (some 7) = (some 7, ['A', 'B', 'C', 'D']) := by
  decide

lemma digitChar_isDigit {d : Nat} (h : d < 10) : (Nat.digitChar d).isDigit = true := by
  interval_cases d <;> decide

lemma digitChar_toNat {d : Nat} (h : d < 10) : (Nat.digitChar d).toNat - 48 = d := by
  interval_cases d <;> decide

lemma isWhitespace_false_of_isDigit {ch : Char} (h : ch.isDigit = true) :
    ch.isWhitespace = false := by
  rcases Bool.eq_false_or_eq_true ch.isWhitespace with hw | hw
  · exfalso
    simp [Char.isWhitespace] at hw
    rcases hw with ((h' | h') | h') | h' <;> subst h' <;> simp [Char.isDigit] at h
  · exact hw

lemma ne_newline_of_isDigit {ch : Char} (h : ch.isDigit = true) : ch ≠ '\n' := by
  intro he
  subst he
  simp [Char.isDigit] at h

lemma isWhitespace_false_of_hex {ch : Char} (h : IsHexUpperChar ch) :
    ch.isWhitespace = false := by
  rcases h with h | ⟨h1, h2⟩
  · exact isWhitespace_false_of_isDigit h
  · rcases Bool.eq_false_or_eq_true ch.isWhitespace with hw | hw
    · exfalso
      simp [Char.isWhitespace] at hw
      rcases hw with ((h' | h') | h') | h' <;> subst h' <;> revert h1 <;> decide
    · exact hw

lemma ne_newline_of_hex {ch : Char} (h : IsHexUpperChar ch) : ch ≠ '\n' := by
  rcases h with h | ⟨h1, h2⟩
  · exact ne_newline_of_isDigit h
  · intro he
    subst he
    revert h1
    decide

lemma dropWhile_eq_self_of {p : Char → Bool} {l : List Char}
    (h : ∀ c ∈ l, p c = false) : l.dropWhile p = l := by
  cases l with
  | nil => rfl
  | cons c cs => rw [List.dropWhile_cons_of_neg (by simp [h c (by simp)])]

lemma jsTrim_eq_self {s : List Char} (h : ∀ c ∈ s, c.isWhitespace = false) :
    jsTrim s = s := by
  unfold jsTrim
  rw [dropWhile_eq_self_of h,
    dropWhile_eq_self_of (fun c hc => h c (List.mem_reverse.mp hc)),
    List.reverse_reverse]

lemma natChars_all_digits (n : Nat) : ∀ ch ∈ natChars n, ch.isDigit = true := by
  intro ch hch
  unfold natChars at hch
  split_ifs at hch with h
  · simp at hch
    subst hch
    decide
  · obtain ⟨d, hd, hdc⟩ := List.mem_map.mp hch
    rw [← hdc]
    exact digitChar_isDigit (Nat.digits_lt_base (by norm_num) (List.mem_reverse.mp hd))

lemma natChars_ne_nil {n : Nat} (h : n ≠ 0) : natChars n ≠ [] := by
  unfold natChars
  split_ifs with h0
  · exact absurd h0 h
  · intro he
    have h1 : (Nat.digits 10 n).reverse = [] := List.map_eq_nil_iff.mp he
    exact Nat.digits_ne_nil_iff_ne_zero.mpr h (List.reverse_eq_nil_iff.mp h1)

lemma foldl_congr_mem {α β : Type} (f g : β → α → β) (l : List α)
    (h : ∀ b, ∀ a ∈ l, f b a = g b a) : ∀ b, l.foldl f b = l.foldl g b := by
  induction l with
  | nil => intro b; rfl
  | cons a t ih =>
    intro b
    rw [List.foldl_cons, List.foldl_cons, h b a (by simp)]
    exact ih (fun b a ha => h b a (by simp [ha])) _

lemma foldr_eq_ofDigits (l : List Nat) :
    l.foldr (fun d a => 10 * a + d) 0 = Nat.ofDigits 10 l := by
  induction l with
  | nil => rfl
  | cons d t ih =>
    rw [List.foldr_cons, ih, Nat.ofDigits_cons]
    omega

lemma digitsToNat_natChars (n : Nat) : digitsToNat (natChars n) = n := by
  unfold natChars digitsToNat
  split_ifs with h
  · subst h
    rfl
  · rw [List.foldl_map]
    rw [foldl_congr_mem _ (fun a d => 10 * a + d) _ (fun b d hd => by
      rw [digitChar_toNat (Nat.digits_lt_base (by norm_num) (List.mem_reverse.mp hd))]) 0]
    rw [List.foldl_reverse]
    exact (foldr_eq_ofDigits _).trans (Nat.ofDigits_digits 10 n)

instance : DecidablePred IsHexUpperChar := fun ch => by
  unfold IsHexUpperChar; infer_instance

lemma isPrefixOf_true {l₁ l₂ : List Char} (h : l₁ <+: l₂) : l₁.isPrefixOf l₂ = true := by
  rw [ List.isPrefixOf_iff_prefix]
  exact h

lemma prefix_of_isPrefixOf {l₁ l₂ : List Char} (h : l₁.isPrefixOf l₂ = true) :
    l₁ <+: l₂ := by
  rw [ List.isPrefixOf_iff_prefix] at h
  exact h

lemma splitOnNewline_cons (ch : Char) (cs : List Char) :
    splitOnNewline (ch :: cs) =
      match splitOnNewline cs with
      | [] => [[ch]]
      | r :: rs => if ch = '\n' then [] :: r :: rs else (ch :: r) :: rs := rfl

lemma splitOnNewline_ne_nil (l : List Char) : splitOnNewline l ≠ [] := by
  cases l with
  | nil => simp [splitOnNewline]
  | cons ch cs =>
    rw [splitOnNewline_cons]
    rcases hs : splitOnNewline cs with _ | ⟨r, rs⟩
    · simp
    · split_ifs <;> simp

lemma splitOnNewline_of_no_newline {l : List Char} (h : '\n' ∉ l) :
    splitOnNewline l = [l] := by
  induction l with
  | nil => rfl
  | cons ch cs ih =>
    have hch : ¬ ch = '\n' := fun he => h (by simp [he])
    rw [splitOnNewline_cons, ih (fun hm => h (by simp [hm]))]
    simp [hch]

lemma splitOnNewline_append {a : List Char} (b : List Char) (h : '\n' ∉ a) :
    splitOnNewline (a ++ '\n' :: b) = a :: splitOnNewline b := by
  induction a with
  | nil =>
    show splitOnNewline ('\n' :: b) = [] :: splitOnNewline b
    rw [splitOnNewline_cons]
    rcases hs : splitOnNewline b with _ | ⟨r, rs⟩
    · exact absurd hs (splitOnNewline_ne_nil b)
    · simp
  | cons ch a ih =>
    have hch : ¬ ch = '\n' := fun he => h (by simp [he])
    show splitOnNewline (ch :: (a ++ '\n' :: b)) = (ch :: a) :: splitOnNewline b
    rw [splitOnNewline_cons, ih (fun hm => h (by simp [hm]))]
    simp [hch]

lemma jsReplaceFirst_left (pat rest : List Char) (hne : pat ≠ []) :
    jsReplaceFirst pat (pat ++ rest) = rest := by
  cases pat with
  | nil => exact absurd rfl hne
  | cons p ps =>
    have h1 : (p :: ps).isPrefixOf ((p :: ps) ++ rest) = true :=
      isPrefixOf_true (List.prefix_append ..)
    show jsReplaceFirst (p :: ps) (p :: (ps ++ rest)) = rest
    unfold jsReplaceFirst
    simp only [← List.cons_append]
    rw [if_pos h1]
    exact List.drop_left ..

lemma lengthTag_isPrefixOf_hexTag (hex : List Char) :
    lengthTag.isPrefixOf (hexTag ++ hex) = false := by
  rcases Bool.eq_false_or_eq_true (lengthTag.isPrefixOf (hexTag ++ hex)) with hw | hw
  · exfalso
    obtain ⟨t, ht⟩ := prefix_of_isPrefixOf hw
    rw [show lengthTag = 'L' :: ['E', 'N', 'G', 'T', 'H', ':'] from rfl,
      show hexTag ++ hex = 'H' :: (['E', 'X', ':'] ++ hex) from rfl] at ht
    simp only [List.cons_append, List.cons.injEq] at ht
    exact absurd ht.1 (by decide)
  · exact hw

/-- C10. Ciphertext-file round trip: for every nonempty uppercase-hex cipher
string and every positive original length, the downloaded file content
`LENGTH:n\nHEX:h` produced by the download handler is parsed back by the
decrypt routine — regardless of the stashed pre-existing length — into
`originalLength = n` and hex payload `h`. -/
theorem downloadFileContent_roundtrip (hex : List Char) (n : Nat) (o0 : Option Nat)
    (hn : 0 < n) (hne : hex ≠ []) (hhex : ∀ ch ∈ hex, IsHexUpperChar ch) :
    parseCipherInput (downloadFileContent hex n) o0 = (some n, hex) := by
  have hnat_digit := natChars_all_digits n
  have hnat_nl : '\n' ∉ natChars n :=
    fun hm => ne_newline_of_isDigit (hnat_digit _ hm) rfl
  have hhex_nl : '\n' ∉ hex := fun hm => ne_newline_of_hex (hhex _ hm) rfl
  have hcontent : downloadFileContent hex n
      = (lengthTag ++ natChars n) ++ '\n' :: (hexTag ++ hex) := by
    unfold downloadFileContent
    rw [if_pos (by omega)]
  have hsplit : splitOnNewline (downloadFileContent hex n)
      = (lengthTag ++ natChars n) :: [hexTag ++ hex] := by
    rw [hcontent, splitOnNewline_append _ (by
      intro hm
      rcases List.mem_append.mp hm with hm | hm
      · revert hm; decide
      · exact hnat_nl hm)]
    rw [splitOnNewline_of_no_newline (by
      intro hm
      rcases List.mem_append.mp hm with hm | hm
      · revert hm; decide
      · exact hhex_nl hm)]
  have houter : lengthTag.isPrefixOf (downloadFileContent hex n) = true := by
    rw [hcontent, List.append_assoc]
    exact isPrefixOf_true (List.prefix_append ..)
  have hline1 : lengthTag.isPrefixOf (lengthTag ++ natChars n) = true :=
    isPrefixOf_true (List.prefix_append ..)
  have hline2 : hexTag.isPrefixOf (hexTag ++ hex) = true :=
    isPrefixOf_true (List.prefix_append ..)
  have hparse1 : jsParseInt (jsTrim (jsReplaceFirst lengthTag (lengthTag ++ natChars n)))
      = some n := by
    rw [jsReplaceFirst_left _ _ (by decide),
      jsTrim_eq_self (fun c hc => isWhitespace_false_of_isDigit (hnat_digit c hc))]
    unfold jsParseInt
    rw [jsTrim_eq_self (fun c hc => isWhitespace_false_of_isDigit (hnat_digit c hc)),
      List.takeWhile_eq_self_iff.mpr hnat_digit]
    rw [if_neg (by
      intro he
      exact natChars_ne_nil (by omega) (List.isEmpty_iff.mp he))]
    rw [digitsToNat_natChars]
  have hparse2 : jsTrim (jsReplaceFirst hexTag (hexTag ++ hex)) = hex := by
    rw [jsReplaceFirst_left _ _ (by decide),
      jsTrim_eq_self (fun c hc => isWhitespace_false_of_hex (hhex c hc))]
  unfold parseCipherInput
  rw [if_pos houter, hsplit]
  simp only [List.foldl_cons, List.foldl_nil]
  rw [if_pos hline1, hparse1, if_neg (by simp [lengthTag_isPrefixOf_hexTag]),
    if_pos hline2, hparse2]

theorem downloadFileContent_roundtrip_witness :
    parseCipherInput (downloadFileContent ['A', 'B', '2', 'F'] 37) none
      = (some 37, ['A', 'B', '2', 'F']) :=
  downloadFileContent_roundtrip ['A', 'B', '2', 'F'] 37 none (by decide) (by decide)
    (by decide)
